import Mathlib

/-!
# Verification of the odutil annotation pipeline

A shallow embedding of the odutil repository (`odutil/analysis.py`,
`parser.py`): Pascal-VOC annotation parsing, YOLO label generation,
folder matching and class-distribution analysis, together with proofs
of the specification's claims about them.

Filesystem access is modelled by passing the directory listings, file
paths and pre-parsed XML trees explicitly; Python's runtime errors are
reflected in an explicit error type, and the float arithmetic of the
label generator is carried out in exact rational arithmetic.
-/

set_option linter.all false

namespace Odutil

/-- Python exception kinds that the embedded functions can raise. -/
inductive PyError where
  | parseError
  | valueError
  | typeError
  | attributeError
  | keyError
  | zeroDivisionError
  deriving DecidableEq, Repr

/-! ## Python dictionaries as association lists

A Python `dict` is modelled as an association list in insertion order:
`dictSet` updates an existing key in place (keeping its position) or
appends a fresh key at the end, exactly like `d[k] = v`. -/

/-- `d[k] = v` on a Python dict: update in place or append at the end. -/
def dictSet {κ α : Type} [DecidableEq κ] : List (κ × α) → κ → α → List (κ × α)
  | [], k, v => [(k, v)]
  | (k', v') :: rest, k, v =>
      if k = k' then (k, v) :: rest else (k', v') :: dictSet rest k v

/-- `d.get(k)` / `d[k]` lookup on a Python dict. -/
def dictGet {κ α : Type} [DecidableEq κ] : List (κ × α) → κ → Option α
  | [], _ => none
  | (k', v) :: rest, k => if k = k' then some v else dictGet rest k

/-- `d[k] = d.setdefault(k, 0) + 1` on a Python dict of counters. -/
def dictInc {κ : Type} [DecidableEq κ] : List (κ × Nat) → κ → List (κ × Nat)
  | [], k => [(k, 1)]
  | (k', v) :: rest, k =>
      if k = k' then (k', v + 1) :: rest else (k', v) :: dictInc rest k

/-! ## String helpers from `os.path` and `str` -/

/-- `os.path.basename`: the part of the path after the last `/`. -/
def basename (p : String) : String :=
  ⟨(p.toList.reverse.takeWhile (· ≠ '/')).reverse⟩

/-- The root part of `os.path.splitext` on a directory entry (which
contains no path separator): everything before the last dot, unless all
characters before that dot are themselves dots, in which case the whole
name is the root. -/
def splitextRoot (p : String) : String :=
  let cs := p.toList
  match cs.reverse.findIdx? (· == '.') with
  | none => p
  | some ridx =>
      let d := cs.length - 1 - ridx
      if (cs.take d).all (· == '.') then p else ⟨cs.take d⟩

/-- `s.strip('\n')`: remove all leading and trailing newline characters. -/
def stripNl (s : String) : String :=
  ⟨((s.toList.dropWhile (· == '\n')).reverse.dropWhile (· == '\n')).reverse⟩

/-! ## Python numeric conversion `int(float(text))`

`pyFloat?` models Python's `float()` on the plain decimal literals that
occur in annotation files: an optional sign, digits, an optional single
dot and fractional digits (exponents and special values such as `inf`
are outside the scope of this development). `pyInt` models `int()` on a
rational: truncation toward zero. -/

/-- Value of a digit string read left to right. -/
def digitsToNat (cs : List Char) : Nat :=
  cs.foldl (fun a c => 10 * a + (c.toNat - 48)) 0

/-- Python `float()` on plain decimal literals; `none` models a
`ValueError` on text that is not numeric. The value of
`[sign]d.f` is the exact rational `sign * (d * 10^|f| + f) / 10^|f|`,
assembled with `mkRat` so that it evaluates by kernel reduction. -/
def pyFloat? (s : String) : Option ℚ :=
  let cs := s.toList
  let signed : Int × List Char :=
    match cs with
    | c :: rest =>
        if c = '-' then (-1, rest) else if c = '+' then (1, rest) else (1, cs)
    | [] => (1, cs)
  let sign := signed.1
  let body := signed.2
  let intPart := body.takeWhile Char.isDigit
  let rest := body.dropWhile Char.isDigit
  match rest with
  | [] =>
      if intPart.isEmpty then none
      else some (mkRat (sign * (digitsToNat intPart : Int)) 1)
  | c :: rest' =>
      if c = '.' then
        let fracPart := rest'.takeWhile Char.isDigit
        let rest'' := rest'.dropWhile Char.isDigit
        if rest''.isEmpty && !(intPart.isEmpty && fracPart.isEmpty) then
          some (mkRat
            (sign * ((digitsToNat intPart : Int) * 10 ^ fracPart.length +
              (digitsToNat fracPart : Int)))
            (10 ^ fracPart.length))
        else none
      else none

/-- Python `int()` on a float value: truncation toward zero. -/
def pyInt (q : ℚ) : Int :=
  q.num.tdiv q.den

/-- `int(float(text))` where `text` is an XML element's text:
`float(None)` is a `TypeError`, non-numeric text a `ValueError`. -/
def pyIntFloat (text : Option String) : Except PyError Int :=
  match text with
  | none => .error .typeError
  | some s =>
    match pyFloat? s with
    | none => .error .valueError
    | some q => .ok (pyInt q)

/-! ## The XML element model

An `xml.etree.ElementTree` element: a tag, optional text, and a list of
child elements in document order. -/

inductive XML where
  | elem (tag : String) (text : Option String) (children : List XML)

def XML.tag : XML → String
  | .elem t _ _ => t

def XML.text : XML → Option String
  | .elem _ tx _ => tx

def XML.children : XML → List XML
  | .elem _ _ c => c

/-- `element.find(tag)`: the first direct child with the given tag. -/
def findChild (x : XML) (t : String) : Option XML :=
  x.children.find? (fun c => c.tag == t)

/-! ## `analysis.parse_anno`: parsed annotation records -/

/-- One entry of the `object` list built by `analysis.parse_anno`:
the `name` child's text and the dict of converted `bndbox` children. -/
structure PObj where
  name : Option String
  coords : List (String × Int)
  deriving DecidableEq, Repr

/-- The dict built by `analysis.parse_anno`: annotation basename,
`filename` text, converted `size` dict, and the `object` list. -/
structure PAnno where
  annoname : String
  filename : Option String
  size : List (String × Int)
  objects : List PObj
  deriving DecidableEq, Repr

/-- The loop `for item in children: d[item.tag] = int(float(item.text))`. -/
def intDictOf (d : List (String × Int)) : List XML → Except PyError (List (String × Int))
  | [] => .ok d
  | item :: rest =>
    match pyIntFloat item.text with
    | .error e => .error e
    | .ok v => intDictOf (dictSet d item.tag v) rest

/-- One iteration of the object loop of `analysis.parse_anno`: read the
`name` child's text (`AttributeError` if the child is missing), then
iterate the `bndbox` child (`TypeError` if it is missing), converting
each coordinate with `int(float(·))`. -/
def parseObj (obj : XML) : Except PyError PObj :=
  match findChild obj "name" with
  | none => .error .attributeError
  | some nameElem =>
    match findChild obj "bndbox" with
    | none => .error .typeError
    | some bbox =>
      match intDictOf [] bbox.children with
      | .error e => .error e
      | .ok coords => .ok ⟨nameElem.text, coords⟩

/-- The object loop of `analysis.parse_anno` over all `object` children. -/
def parseObjs : List XML → Except PyError (List PObj)
  | [] => .ok []
  | o :: rest =>
    match parseObj o with
    | .error e => .error e
    | .ok p =>
      match parseObjs rest with
      | .error e => .error e
      | .ok ps => .ok (p :: ps)

/-- `odutil/analysis.py`'s `parse_anno`, on the path of the file and its
pre-parsed XML root: records the annotation basename, the `filename`
text (`AttributeError` if the element is missing), the `size` children
converted with `int(float(·))` (`TypeError` when `size` is missing,
since iterating `None` fails), and the parsed `object` list. -/
def parse_anno (path : String) (root : XML) : Except PyError PAnno :=
  match findChild root "filename" with
  | none => .error .attributeError
  | some fnElem =>
    match findChild root "size" with
    | none => .error .typeError
    | some sizeElem =>
      match intDictOf [] sizeElem.children with
      | .error e => .error e
      | .ok size =>
        match parseObjs (root.children.filter (fun c => c.tag == "object")) with
        | .error e => .error e
        | .ok objects => .ok ⟨basename path, fnElem.text, size, objects⟩

/-! ## `parser.parse_anno`: the drifted duplicate

`parser.py`'s `parse_anno` keeps the raw element text of the `size` and
`bndbox` children and records no annotation basename. -/

/-- One entry of the `object` list built by `parser.parse_anno`. -/
structure RObj where
  name : Option String
  coords : List (String × Option String)
  deriving DecidableEq, Repr

/-- The dict built by `parser.parse_anno`. -/
structure RAnno where
  filename : Option String
  size : List (String × Option String)
  objects : List RObj
  deriving DecidableEq, Repr

/-- The loop `for item in children: d[item.tag] = item.text`. -/
def rawDictOf (d : List (String × Option String)) : List XML → List (String × Option String)
  | [] => d
  | item :: rest => rawDictOf (dictSet d item.tag item.text) rest

/-- One iteration of the object loop of `parser.parse_anno`. -/
def parserObj (obj : XML) : Except PyError RObj :=
  match findChild obj "name" with
  | none => .error .attributeError
  | some nameElem =>
    match findChild obj "bndbox" with
    | none => .error .typeError
    | some bbox => .ok ⟨nameElem.text, rawDictOf [] bbox.children⟩

/-- The object loop of `parser.parse_anno` over all `object` children. -/
def parserObjs : List XML → Except PyError (List RObj)
  | [] => .ok []
  | o :: rest =>
    match parserObj o with
    | .error e => .error e
    | .ok r =>
      match parserObjs rest with
      | .error e => .error e
      | .ok rs => .ok (r :: rs)

/-- `parser.py`'s `parse_anno`, on the pre-parsed XML root: like the
`analysis.py` one but with raw text values and no basename field. -/
def parser_parse_anno (root : XML) : Except PyError RAnno :=
  match findChild root "filename" with
  | none => .error .attributeError
  | some fnElem =>
    match findChild root "size" with
    | none => .error .typeError
    | some sizeElem =>
      match parserObjs (root.children.filter (fun c => c.tag == "object")) with
      | .error e => .error e
      | .ok objects => .ok ⟨fnElem.text, rawDictOf [] sizeElem.children, objects⟩

/-! ## `check_match` -/

/-- `analysis.py`'s `check_match`, on the two directory listings: false
when the entry counts differ, otherwise true iff the extension-stripped
name of every entry of the second listing occurs among the
extension-stripped names of the first. -/
def check_match (name1 name2 : List String) : Bool :=
  if name1.length ≠ name2.length then false
  else
    let setName := name1.map splitextRoot
    name2.all (fun n => setName.contains (splitextRoot n))

/-! ## `gen_label` -/

/-- The name-to-label loop of `gen_label`: a dict and a running counter
starting at 0, one `d[l.strip('\n')] = label; label += 1` per line. -/
def n2lAux : List String → List (String × Nat) → Nat → List (String × Nat)
  | [], d, _ => d
  | l :: rest, d, c => n2lAux rest (dictSet d (stripNl l) c) (c + 1)

/-- The name→index dict `gen_label` builds from the lines of the names
file (each line as read, before its newline is stripped). -/
def name2labelOf (rawLines : List String) : List (String × Nat) :=
  n2lAux rawLines [] 0

/-- The four normalized geometry values computed for one retained box:
`x_center`, `y_center`, `width`, `height` in exact rational arithmetic. -/
def normBox (W H xmin ymin xmax ymax : Int) : ℚ × ℚ × ℚ × ℚ :=
  (((xmin : ℚ) + (xmax : ℚ)) / (2 * (W : ℚ)),
   ((ymin : ℚ) + (ymax : ℚ)) / (2 * (H : ℚ)),
   ((xmax : ℚ) - (xmin : ℚ)) / (W : ℚ),
   ((ymax : ℚ) - (ymin : ℚ)) / (H : ℚ))

/-- One output row of `gen_label`: the label index and the four
normalized geometry values. -/
abbrev Row : Type := Nat × ℚ × ℚ × ℚ × ℚ

/-- The row loop of `gen_label`: boxes whose `name` is not a key of the
name→label dict are skipped; for a retained box the coordinates are read
from its dict (`KeyError` when absent, in the evaluation order of the
source expressions) and Python's division by a zero dimension is a
`ZeroDivisionError`. -/
def genRows (n2l : List (String × Nat)) (W H : Int) : List PObj → Except PyError (List Row)
  | [] => .ok []
  | b :: rest =>
    match b.name with
    | none => genRows n2l W H rest
    | some nm =>
      match dictGet n2l nm with
      | none => genRows n2l W H rest
      | some label =>
        match dictGet b.coords "xmin" with
        | none => .error .keyError
        | some xmin =>
          match dictGet b.coords "xmax" with
          | none => .error .keyError
          | some xmax =>
            if W = 0 then .error .zeroDivisionError
            else
              match dictGet b.coords "ymin" with
              | none => .error .keyError
              | some ymin =>
                match dictGet b.coords "ymax" with
                | none => .error .keyError
                | some ymax =>
                  if H = 0 then .error .zeroDivisionError
                  else
                    match genRows n2l W H rest with
                    | .error e => .error e
                    | .ok rows => .ok ((label, normBox W H xmin ymin xmax ymax) :: rows)

/-- `analysis.py`'s `gen_label`, on the annotation path, its pre-parsed
XML root and the lines of the names file: parse the annotation, build
the name→label dict, read `W` and `H` from the size dict (`KeyError`
when absent) and produce the list of rows that is written to the output
file. The rendering of the rows to text and the file write itself are
outside the model; the result is the list of emitted rows. -/
def gen_label (path : String) (root : XML) (rawLines : List String) : Except PyError (List Row) :=
  match parse_anno path root with
  | .error e => .error e
  | .ok anno =>
    match dictGet anno.size "width" with
    | none => .error .keyError
    | some W =>
      match dictGet anno.size "height" with
      | none => .error .keyError
      | some H => genRows (name2labelOf rawLines) W H anno.objects

/-! ## `distribution` -/

/-- The inner object loop of `distribution`: for each box,
`d[obj['name']] = d.setdefault(obj['name'], 0) + 1` followed by
`d['N'] += 1`. Keys are `Option String` because a box's `name` text can
be `None`; the literal string key `'N'` is `some "N"`. -/
def distObjs : List PObj → List (Option String × Nat) → List (Option String × Nat)
  | [], d => d
  | o :: rest, d => distObjs rest (dictInc (dictInc d o.name) (some "N"))

/-- The outer annotation loop of `distribution`. -/
def distAnnos : List PAnno → List (Option String × Nat) → List (Option String × Nat)
  | [], d => d
  | a :: rest, d => distAnnos rest (distObjs a.objects d)

/-- `analysis.py`'s `distribution`, on the list of parsed annotations of
the folder: the counter dict starting from `{'N': 0}`. -/
def distribution (annos : List PAnno) : List (Option String × Nat) :=
  distAnnos annos [(some "N", 0)]

/-- The names of all boxes of all annotations, in iteration order. -/
def allNames : List PAnno → List (Option String)
  | [] => []
  | a :: rest => a.objects.map PObj.name ++ allNames rest

/-- The object loop of `distribution` on the list of box names alone;
used to relate the nested loops to a single traversal of `allNames`. -/
def distNames : List (Option String) → List (Option String × Nat) → List (Option String × Nat)
  | [], d => d
  | nm :: rest, d => distNames rest (dictInc (dictInc d nm) (some "N"))

/-- Sum of the counter values of all entries other than the total key
`'N'`: the sum of the per-class counts of a `distribution` result. -/
def sumNonN (d : List (Option String × Nat)) : Nat :=
  ((d.filter (fun p => !(p.1 == some "N"))).map Prod.snd).sum

/-- The row that the specification assigns to one bounding box: the
label index looked up from the name dict, followed by the four
normalized values; `none` when the class name is absent from the dict
(the box is dropped) or the name text is missing. -/
def specRow (n2l : List (String × Nat)) (W H : Int) (b : PObj) : Option Row :=
  match b.name with
  | none => none
  | some nm =>
    match dictGet n2l nm with
    | none => none
    | some label =>
      match dictGet b.coords "xmin", dictGet b.coords "ymin",
            dictGet b.coords "xmax", dictGet b.coords "ymax" with
      | some xmin, some ymin, some xmax, some ymax =>
          some (label,
            ((xmin : ℚ) + (xmax : ℚ)) / (2 * (W : ℚ)),
            ((ymin : ℚ) + (ymax : ℚ)) / (2 * (H : ℚ)),
            ((xmax : ℚ) - (xmin : ℚ)) / (W : ℚ),
            ((ymax : ℚ) - (ymin : ℚ)) / (H : ℚ))
      | _, _, _, _ => none

/-- A box is ready for the row loop when, if its class name is a key of
the name dict, all four coordinate keys are present in its dict. -/
def boxReady (n2l : List (String × Nat)) (b : PObj) : Bool :=
  match b.name with
  | none => true
  | some nm =>
    match dictGet n2l nm with
    | none => true
    | some _ =>
        (dictGet b.coords "xmin").isSome && (dictGet b.coords "ymin").isSome &&
        (dictGet b.coords "xmax").isSome && (dictGet b.coords "ymax").isSome

/-- Rendering of an `analysis.py` parse result in the shape of a
`parser.py` one: the basename field is dropped and every converted
integer is printed back to decimal text. Used to compare the two
coexisting `parse_anno` implementations on a common type. -/
def PAnno.asRaw (a : PAnno) : RAnno :=
  ⟨a.filename,
   a.size.map (fun p => (p.1, some (toString p.2))),
   a.objects.map (fun o => ⟨o.name, o.coords.map (fun p => (p.1, some (toString p.2)))⟩)⟩

/-! ## Concrete annotation fixtures used by the witnesses -/

/-- A well-formed two-object annotation tree: a `cat` box and a `zebra`
box in a 10 by 10 image. -/
def egRoot : XML :=
  .elem "annotation" none
    [ .elem "filename" (some "img.jpg") [],
      .elem "size" none
        [ .elem "width" (some "10") [], .elem "height" (some "10") [],
          .elem "depth" (some "3") [] ],
      .elem "object" none
        [ .elem "name" (some "cat") [],
          .elem "bndbox" none
            [ .elem "xmin" (some "1") [], .elem "ymin" (some "2") [],
              .elem "xmax" (some "3") [], .elem "ymax" (some "4") [] ] ],
      .elem "object" none
        [ .elem "name" (some "zebra") [],
          .elem "bndbox" none
            [ .elem "xmin" (some "5") [], .elem "ymin" (some "5") [],
              .elem "xmax" (some "6") [], .elem "ymax" (some "6") [] ] ] ]

/-- The parsed record of `egRoot`. -/
def egAnno : PAnno :=
  ⟨"a.xml", some "img.jpg", [("width", 10), ("height", 10), ("depth", 3)],
   [⟨some "cat", [("xmin", 1), ("ymin", 2), ("xmax", 3), ("ymax", 4)]⟩,
    ⟨some "zebra", [("xmin", 5), ("ymin", 5), ("xmax", 6), ("ymax", 6)]⟩]⟩

/-- The record `parser.py` produces for `egRoot`: raw text values. -/
def egRAnno : RAnno :=
  ⟨some "img.jpg",
   [("width", some "10"), ("height", some "10"), ("depth", some "3")],
   [⟨some "cat",
     [("xmin", some "1"), ("ymin", some "2"), ("xmax", some "3"), ("ymax", some "4")]⟩,
    ⟨some "zebra",
     [("xmin", some "5"), ("ymin", some "5"), ("xmax", some "6"), ("ymax", some "6")]⟩]⟩

/-- An annotation tree with no objects whose single size child `width`
carries the given text. -/
def sizeRoot (s : String) : XML :=
  .elem "annotation" none
    [ .elem "filename" (some "img.jpg") [],
      .elem "size" none [ .elem "width" (some s) [] ] ]

/-- An annotation tree whose only object lacks its `bndbox` child. -/
def noBndboxRoot : XML :=
  .elem "annotation" none
    [ .elem "filename" (some "img.jpg") [],
      .elem "size" none [ .elem "width" (some "10") [] ],
      .elem "object" none [ .elem "name" (some "cat") [] ] ]

end Odutil

deriving instance DecidableEq for Except

namespace Odutil

/-! ## Association-list lemmas -/

theorem dictGet_dictSet_self {κ α : Type} [DecidableEq κ] (d : List (κ × α)) (k : κ) (v : α) :
    dictGet (dictSet d k v) k = some v := by
  induction d with
  | nil => simp [dictSet, dictGet]
  | cons p rest ih =>
    obtain ⟨k', v'⟩ := p
    by_cases h : k = k'
    · subst h; simp [dictSet, dictGet]
    · simp [dictSet, dictGet, h, ih]

theorem dictGet_dictSet_ne {κ α : Type} [DecidableEq κ] (d : List (κ × α)) (k : κ) (v : α)
    (k'' : κ) (h : k'' ≠ k) : dictGet (dictSet d k v) k'' = dictGet d k'' := by
  induction d with
  | nil => simp [dictSet, dictGet, h]
  | cons p rest ih =>
    obtain ⟨k', v'⟩ := p
    by_cases hk : k = k'
    · subst hk; simp [dictSet, dictGet, h]
    · simp [dictSet, dictGet, hk, ih]

theorem dictGet_dictInc_self {κ : Type} [DecidableEq κ] (d : List (κ × Nat)) (k : κ) :
    dictGet (dictInc d k) k = some ((dictGet d k).getD 0 + 1) := by
  induction d with
  | nil => simp [dictInc, dictGet]
  | cons p rest ih =>
    obtain ⟨k', v'⟩ := p
    by_cases h : k = k'
    · subst h; simp [dictInc, dictGet]
    · simp [dictInc, dictGet, h, ih]

theorem dictGet_dictInc_ne {κ : Type} [DecidableEq κ] (d : List (κ × Nat)) (k : κ)
    (k'' : κ) (h : k'' ≠ k) : dictGet (dictInc d k) k'' = dictGet d k'' := by
  induction d with
  | nil => simp [dictInc, dictGet, h]
  | cons p rest ih =>
    obtain ⟨k', v'⟩ := p
    by_cases hk : k = k'
    · subst hk; simp [dictInc, dictGet, h]
    · simp [dictInc, dictGet, hk, ih]

/-! ## Claim C3: normalized values lie in the unit interval -/

/-- Claim C3: for a well-formed annotation whose box satisfies
`0 ≤ xmin ≤ xmax ≤ width` and `0 ≤ ymin ≤ ymax ≤ height` with positive
image dimensions, each of the four normalized values `x_center`,
`y_center`, `box_width`, `box_height` that `gen_label` computes (the
components of `normBox`) lies in `[0, 1]`. -/
theorem normBox_values_in_unit_interval (W H xmin ymin xmax ymax : Int)
    (hx0 : 0 ≤ xmin) (hx1 : xmin ≤ xmax) (hx2 : xmax ≤ W)
    (hy0 : 0 ≤ ymin) (hy1 : ymin ≤ ymax) (hy2 : ymax ≤ H)
    (hW : 0 < W) (hH : 0 < H) :
    0 ≤ (normBox W H xmin ymin xmax ymax).1 ∧
    (normBox W H xmin ymin xmax ymax).1 ≤ 1 ∧
    0 ≤ (normBox W H xmin ymin xmax ymax).2.1 ∧
    (normBox W H xmin ymin xmax ymax).2.1 ≤ 1 ∧
    0 ≤ (normBox W H xmin ymin xmax ymax).2.2.1 ∧
    (normBox W H xmin ymin xmax ymax).2.2.1 ≤ 1 ∧
    0 ≤ (normBox W H xmin ymin xmax ymax).2.2.2 ∧
    (normBox W H xmin ymin xmax ymax).2.2.2 ≤ 1 := by
  have hxm : (0 : ℚ) ≤ (xmin : ℚ) := by exact_mod_cast hx0
  have hx12 : (xmin : ℚ) ≤ (xmax : ℚ) := by exact_mod_cast hx1
  have hx2W : (xmax : ℚ) ≤ (W : ℚ) := by exact_mod_cast hx2
  have hym : (0 : ℚ) ≤ (ymin : ℚ) := by exact_mod_cast hy0
  have hy12 : (ymin : ℚ) ≤ (ymax : ℚ) := by exact_mod_cast hy1
  have hy2H : (ymax : ℚ) ≤ (H : ℚ) := by exact_mod_cast hy2
  have hWq : (0 : ℚ) < (W : ℚ) := by exact_mod_cast hW
  have hHq : (0 : ℚ) < (H : ℚ) := by exact_mod_cast hH
  simp only [normBox]
  refine ⟨?_, ?_, ?_, ?_, ?_, ?_, ?_, ?_⟩
  · exact div_nonneg (by linarith) (by linarith)
  · rw [div_le_one (by linarith)]; linarith
  · exact div_nonneg (by linarith) (by linarith)
  · rw [div_le_one (by linarith)]; linarith
  · exact div_nonneg (by linarith) (by linarith)
  · rw [div_le_one (by linarith)]; linarith
  · exact div_nonneg (by linarith) (by linarith)
  · rw [div_le_one (by linarith)]; linarith

/-- Witness for C3 at the concrete box `(1, 2, 3, 4)` in a 10 by 10
image. -/
theorem normBox_values_in_unit_interval_witness :
    ((0 : Int) ≤ 1 ∧ (1 : Int) ≤ 3 ∧ (3 : Int) ≤ 10 ∧ (0 : Int) ≤ 2 ∧
      (2 : Int) ≤ 4 ∧ (4 : Int) ≤ 10 ∧ (0 : Int) < 10 ∧ (0 : Int) < 10) ∧
    (0 ≤ (normBox 10 10 1 2 3 4).1 ∧
     (normBox 10 10 1 2 3 4).1 ≤ 1 ∧
     0 ≤ (normBox 10 10 1 2 3 4).2.1 ∧
     (normBox 10 10 1 2 3 4).2.1 ≤ 1 ∧
     0 ≤ (normBox 10 10 1 2 3 4).2.2.1 ∧
     (normBox 10 10 1 2 3 4).2.2.1 ≤ 1 ∧
     0 ≤ (normBox 10 10 1 2 3 4).2.2.2 ∧
     (normBox 10 10 1 2 3 4).2.2.2 ≤ 1) :=
  ⟨by decide,
   normBox_values_in_unit_interval 10 10 1 2 3 4 (by decide) (by decide) (by decide)
     (by decide) (by decide) (by decide) (by decide) (by decide)⟩

/-! ## Claim C8: the normalization round-trips -/

/-- Claim C8: with nonzero image dimensions, inverting the
normalization formulas over exact rational arithmetic reconstructs the
parsed box coordinates exactly:
`(x_center - box_width / 2) * W = xmin`,
`(x_center + box_width / 2) * W = xmax`, and likewise for `y`. -/
theorem normBox_roundtrip (W H xmin ymin xmax ymax : Int)
    (hW : W ≠ 0) (hH : H ≠ 0) :
    ((normBox W H xmin ymin xmax ymax).1 -
        (normBox W H xmin ymin xmax ymax).2.2.1 / 2) * (W : ℚ) = (xmin : ℚ) ∧
    ((normBox W H xmin ymin xmax ymax).1 +
        (normBox W H xmin ymin xmax ymax).2.2.1 / 2) * (W : ℚ) = (xmax : ℚ) ∧
    ((normBox W H xmin ymin xmax ymax).2.1 -
        (normBox W H xmin ymin xmax ymax).2.2.2 / 2) * (H : ℚ) = (ymin : ℚ) ∧
    ((normBox W H xmin ymin xmax ymax).2.1 +
        (normBox W H xmin ymin xmax ymax).2.2.2 / 2) * (H : ℚ) = (ymax : ℚ) := by
  have hWq : (W : ℚ) ≠ 0 := Int.cast_ne_zero.mpr hW
  have hHq : (H : ℚ) ≠ 0 := Int.cast_ne_zero.mpr hH
  simp only [normBox]
  refine ⟨?_, ?_, ?_, ?_⟩ <;> field_simp <;> ring

/-- Witness for C8 at the concrete box `(1, 2, 3, 4)` in a 10 by 10
image. -/
theorem normBox_roundtrip_witness :
    ((10 : Int) ≠ 0 ∧ (10 : Int) ≠ 0) ∧
    (((normBox 10 10 1 2 3 4).1 - (normBox 10 10 1 2 3 4).2.2.1 / 2) * ((10 : Int) : ℚ) =
        ((1 : Int) : ℚ) ∧
     ((normBox 10 10 1 2 3 4).1 + (normBox 10 10 1 2 3 4).2.2.1 / 2) * ((10 : Int) : ℚ) =
        ((3 : Int) : ℚ) ∧
     ((normBox 10 10 1 2 3 4).2.1 - (normBox 10 10 1 2 3 4).2.2.2 / 2) * ((10 : Int) : ℚ) =
        ((2 : Int) : ℚ) ∧
     ((normBox 10 10 1 2 3 4).2.1 + (normBox 10 10 1 2 3 4).2.2.2 / 2) * ((10 : Int) : ℚ) =
        ((4 : Int) : ℚ)) :=
  ⟨by decide, normBox_roundtrip 10 10 1 2 3 4 (by decide) (by decide)⟩

/-! ## Claim C1: `check_match` versus stem-set equality

With the raw entry counts compared but the stems deduplicated into a
set, equal counts plus one-directional containment does not imply set
equality: two entries of one directory may share a stem. -/

/-- Counterexample to C1 as stated: the listings `["a.txt", "b.txt"]`
and `["a.jpg", "a.png"]` have equal counts and every stem of the second
occurs among the stems of the first, so `check_match` returns true,
yet the two stem sets differ (`"b"` is only on the left). -/
theorem check_match_cex :
    check_match ["a.txt", "b.txt"] ["a.jpg", "a.png"] = true ∧
    (["a.txt", "b.txt"].map splitextRoot).toFinset ≠
      (["a.jpg", "a.png"].map splitextRoot).toFinset :=
  ⟨by decide, by decide⟩

/-- Claim C1 (amended): provided no two entries of the same directory
share an extension-stripped basename, `check_match` returns true iff
the two listings have the same number of entries and the same set of
extension-stripped basenames. (Without that proviso only the forward
count equality and one-directional containment hold, as the
counterexample shows.) -/
theorem check_match_iff_set_eq (l1 l2 : List String)
    (h1 : (l1.map splitextRoot).Nodup) (h2 : (l2.map splitextRoot).Nodup) :
    check_match l1 l2 = true ↔
      (l1.length = l2.length ∧
        (l1.map splitextRoot).toFinset = (l2.map splitextRoot).toFinset) := by
  unfold check_match
  by_cases hlen : l1.length = l2.length
  · simp only [hlen, ne_eq, not_true_eq_false, if_false, List.all_eq_true, true_and]
    constructor
    · intro hall
      have hsub : (l2.map splitextRoot).toFinset ⊆ (l1.map splitextRoot).toFinset := by
        intro s hs
        rw [List.mem_toFinset] at hs ⊢
        obtain ⟨n, hn, rfl⟩ := List.mem_map.mp hs
        have := hall n hn
        exact List.mem_of_elem_eq_true this
      have hcard : (l1.map splitextRoot).toFinset.card ≤ (l2.map splitextRoot).toFinset.card := by
        rw [List.toFinset_card_of_nodup h1, List.toFinset_card_of_nodup h2,
          List.length_map, List.length_map, hlen]
      exact (Finset.eq_of_subset_of_card_le hsub hcard).symm
    · intro hset n hn
      have hmem : splitextRoot n ∈ l2.map splitextRoot := List.mem_map_of_mem _ hn
      have hmem1 : splitextRoot n ∈ l1.map splitextRoot := by
        rw [← List.mem_toFinset, hset, List.mem_toFinset]; exact hmem
      exact List.elem_eq_true_of_mem hmem1
  · simp [hlen]

/-- Witness for the amended C1 at the concrete listings of the
specification: `{"1.xml", "2.xml"}` against `{"1.jpg", "2.jpg"}`. -/
theorem check_match_iff_set_eq_witness :
    ((["1.xml", "2.xml"].map splitextRoot).Nodup ∧
      (["1.jpg", "2.jpg"].map splitextRoot).Nodup) ∧
    (check_match ["1.xml", "2.xml"] ["1.jpg", "2.jpg"] = true ↔
      (["1.xml", "2.xml"].length = ["1.jpg", "2.jpg"].length ∧
        (["1.xml", "2.xml"].map splitextRoot).toFinset =
          (["1.jpg", "2.jpg"].map splitextRoot).toFinset)) :=
  ⟨⟨by decide, by decide⟩, check_match_iff_set_eq _ _ (by decide) (by decide)⟩

/-! ## Claim C6: the name-to-label dict indexes the lines -/

theorem n2lAux_preserve (lines : List String) :
    ∀ (d : List (String × Nat)) (c : Nat) (k : String),
      (∀ l ∈ lines, stripNl l ≠ k) → dictGet (n2lAux lines d c) k = dictGet d k := by
  induction lines with
  | nil => intro d c k _; rfl
  | cons l rest ih =>
    intro d c k h
    simp only [n2lAux]
    rw [ih _ _ _ (fun l' hl' => h l' (List.mem_cons_of_mem _ hl'))]
    exact dictGet_dictSet_ne _ _ _ _ (Ne.symm (h l (List.mem_cons_self l rest)))

theorem n2lAux_get (lines : List String) :
    ∀ (d : List (String × Nat)) (c : Nat),
      (∀ l ∈ lines, dictGet d (stripNl l) = none) → (lines.map stripNl).Nodup →
      ∀ i (hi : i < lines.length),
        dictGet (n2lAux lines d c) (stripNl (lines.get ⟨i, hi⟩)) = some (c + i) := by
  induction lines with
  | nil => intro d c _ _ i hi; exact absurd hi (by simp)
  | cons l rest ih =>
    intro d c hd hnd i hi
    simp only [List.map_cons, List.nodup_cons] at hnd
    obtain ⟨hnotin, hndrest⟩ := hnd
    match i with
    | 0 =>
      show dictGet (n2lAux rest (dictSet d (stripNl l) c) (c + 1)) (stripNl l) = some (c + 0)
      rw [n2lAux_preserve rest _ _ _ ?_, dictGet_dictSet_self]
      · simp
      · intro l' hl' he
        exact hnotin (he ▸ List.mem_map_of_mem stripNl hl')
    | i + 1 =>
      have hj : i < rest.length := by
        simpa using Nat.lt_of_succ_lt_succ hi
      have hd' : ∀ l' ∈ rest, dictGet (dictSet d (stripNl l) c) (stripNl l') = none := by
        intro l' hl'
        rw [dictGet_dictSet_ne _ _ _ _ ?_]
        · exact hd l' (List.mem_cons_of_mem _ hl')
        · intro he; exact hnotin (he ▸ List.mem_map_of_mem stripNl hl')
      have hrec := ih (dictSet d (stripNl l) c) (c + 1) hd' hndrest i hj
      show dictGet (n2lAux rest (dictSet d (stripNl l) c) (c + 1))
        (stripNl (rest.get ⟨i, hj⟩)) = some (c + (i + 1))
      rw [hrec]
      congr 1
      omega

/-- Claim C6: the name→label dict built by `gen_label` assigns to each
line's (newline-stripped) class name the zero-based index of that line,
so indices are dense, zero-based and in line order (stated for names
files whose stripped lines are distinct, as a dict cannot assign two
indices to one name); and on the names file with the three lines `cat`,
`dog`, `bird` the dict is exactly `{cat: 0, dog: 1, bird: 2}`. -/
theorem name2label_line_indexing (lines : List String)
    (hnd : (lines.map stripNl).Nodup) (i : Nat) (hi : i < lines.length) :
    dictGet (name2labelOf lines) (stripNl (lines.get ⟨i, hi⟩)) = some i ∧
    name2labelOf ["cat", "dog", "bird"] = [("cat", 0), ("dog", 1), ("bird", 2)] := by
  constructor
  · have := n2lAux_get lines [] 0 (fun _ _ => rfl) hnd i hi
    simpa using this
  · decide

/-- Witness for C6: line 1 of the names file `cat`, `dog`, `bird` is
`dog` and its label is 1; the whole dict is `{cat: 0, dog: 1, bird: 2}`. -/
theorem name2label_line_indexing_witness :
    ((["cat", "dog", "bird"].map stripNl).Nodup ∧ 1 < ["cat", "dog", "bird"].length) ∧
    (dictGet (name2labelOf ["cat", "dog", "bird"])
        (stripNl (["cat", "dog", "bird"].get ⟨1, by decide⟩)) = some 1 ∧
      name2labelOf ["cat", "dog", "bird"] = [("cat", 0), ("dog", 1), ("bird", 2)]) :=
  ⟨⟨by decide, by decide⟩, name2label_line_indexing _ (by decide) 1 (by decide)⟩

/-! ## Claims C2 and C5: the rows `gen_label` emits -/

theorem genRows_ok_eq_filterMap (n2l : List (String × Nat)) (W H : Int) :
    ∀ (objs : List PObj) (rows : List Row),
      genRows n2l W H objs = .ok rows → rows = objs.filterMap (specRow n2l W H) := by
  intro objs
  induction objs with
  | nil =>
    intro rows h
    simp only [genRows, Except.ok.injEq] at h
    simp [h.symm]
  | cons b rest ih =>
    intro rows h
    cases hn : b.name with
    | none =>
      simp only [genRows, hn] at h
      simp [List.filterMap_cons, specRow, hn, ih rows h]
    | some nm =>
      cases hl : dictGet n2l nm with
      | none =>
        simp only [genRows, hn, hl] at h
        simp [List.filterMap_cons, specRow, hn, hl, ih rows h]
      | some label =>
        cases hxmin : dictGet b.coords "xmin" with
        | none =>
          simp only [genRows, hn, hl, hxmin] at h
          exact Except.noConfusion h
        | some xmin =>
          cases hxmax : dictGet b.coords "xmax" with
          | none =>
            simp only [genRows, hn, hl, hxmin, hxmax] at h
            exact Except.noConfusion h
          | some xmax =>
            by_cases hW0 : W = 0
            · simp only [genRows, hn, hl, hxmin, hxmax, if_pos hW0] at h
              exact Except.noConfusion h
            · cases hymin : dictGet b.coords "ymin" with
              | none =>
                simp only [genRows, hn, hl, hxmin, hxmax, if_neg hW0, hymin] at h
                exact Except.noConfusion h
              | some ymin =>
                cases hymax : dictGet b.coords "ymax" with
                | none =>
                  simp only [genRows, hn, hl, hxmin, hxmax, if_neg hW0, hymin, hymax] at h
                  exact Except.noConfusion h
                | some ymax =>
                  by_cases hH0 : H = 0
                  · simp only [genRows, hn, hl, hxmin, hxmax, if_neg hW0, hymin, hymax,
                      if_pos hH0] at h
                    exact Except.noConfusion h
                  · cases hrec : genRows n2l W H rest with
                    | error e =>
                      simp only [genRows, hn, hl, hxmin, hxmax, if_neg hW0, hymin, hymax,
                        if_neg hH0, hrec] at h
                      exact Except.noConfusion h
                    | ok rows' =>
                      simp only [genRows, hn, hl, hxmin, hxmax, if_neg hW0, hymin, hymax,
                        if_neg hH0, hrec, Except.ok.injEq] at h
                      subst h
                      simp [List.filterMap_cons, specRow, hn, hl, hxmin, hymin, hxmax,
                        hymax, normBox, ih rows' hrec]

theorem genRows_total (n2l : List (String × Nat)) (W H : Int)
    (hW : W ≠ 0) (hH : H ≠ 0) :
    ∀ objs : List PObj, objs.all (boxReady n2l) = true →
      genRows n2l W H objs = .ok (objs.filterMap (specRow n2l W H)) := by
  intro objs
  induction objs with
  | nil => intro _; rfl
  | cons b rest ih =>
    intro hall
    simp only [List.all_cons, Bool.and_eq_true] at hall
    obtain ⟨hb, hrest⟩ := hall
    cases hn : b.name with
    | none => simp [genRows, hn, specRow, ih hrest]
    | some nm =>
      cases hl : dictGet n2l nm with
      | none => simp [genRows, hn, hl, specRow, ih hrest]
      | some label =>
        simp only [boxReady, hn, hl, Bool.and_eq_true, Option.isSome_iff_exists] at hb
        obtain ⟨⟨⟨⟨xmin, hxmin⟩, ⟨ymin, hymin⟩⟩, ⟨xmax, hxmax⟩⟩, ⟨ymax, hymax⟩⟩ := hb
        simp [genRows, hn, hl, hxmin, hymin, hxmax, hymax, hW, hH, specRow,
          normBox, List.filterMap_cons, ih hrest]

/-- Claim C2: every row `gen_label` emits is, for its retained bounding
box, exactly the label index from the name dict followed by the four
values `x_center = (xmin + xmax) / (2 width)`,
`y_center = (ymin + ymax) / (2 height)`, `box_width = (xmax - xmin) / width`
and `box_height = (ymax - ymin) / height` (the content of `specRow`),
computed from the parsed integer coordinates and parsed dimensions: a
successful `gen_label` output equals the `specRow` image of the parsed
object list. -/
theorem gen_label_rows_are_normalized (path : String) (root : XML)
    (rawLines : List String) (anno : PAnno) (W H : Int) (rows : List Row)
    (hp : parse_anno path root = .ok anno)
    (hW : dictGet anno.size "width" = some W)
    (hH : dictGet anno.size "height" = some H)
    (hg : gen_label path root rawLines = .ok rows) :
    rows = anno.objects.filterMap (specRow (name2labelOf rawLines) W H) := by
  unfold gen_label at hg
  simp only [hp, hW, hH] at hg
  exact genRows_ok_eq_filterMap _ _ _ _ _ hg

/-- Witness for C2 on the concrete two-object annotation `egRoot` with
names file `["cat"]`: the single emitted row is the normalized `cat`
box. -/
theorem gen_label_rows_are_normalized_witness :
    (parse_anno "dir/a.xml" egRoot = .ok egAnno ∧
      dictGet egAnno.size "width" = some 10 ∧
      dictGet egAnno.size "height" = some 10 ∧
      gen_label "dir/a.xml" egRoot ["cat"] = .ok [(0, normBox 10 10 1 2 3 4)]) ∧
    [((0 : Nat), normBox 10 10 1 2 3 4)] =
      egAnno.objects.filterMap (specRow (name2labelOf ["cat"]) 10 10) :=
  ⟨⟨by decide, by decide, by decide, rfl⟩,
   gen_label_rows_are_normalized "dir/a.xml" egRoot ["cat"] egAnno 10 10
     [((0 : Nat), normBox 10 10 1 2 3 4)] (by decide) (by decide) (by decide) rfl⟩

/-- Claim C5: on an annotation containing both known and unknown class
names (given well-formed coordinates for the retained boxes and nonzero
dimensions), `gen_label` raises no error and emits exactly the rows of
the boxes whose class name is a key of the name dict: its output is
`.ok` of the `specRow` image, under which every unknown-name box
contributes nothing and every known-name box contributes its row. -/
theorem gen_label_skips_unknown_names (path : String) (root : XML)
    (rawLines : List String) (anno : PAnno) (W H : Int)
    (hp : parse_anno path root = .ok anno)
    (hW : dictGet anno.size "width" = some W)
    (hH : dictGet anno.size "height" = some H)
    (hW0 : W ≠ 0) (hH0 : H ≠ 0)
    (hready : anno.objects.all (boxReady (name2labelOf rawLines)) = true) :
    gen_label path root rawLines =
      .ok (anno.objects.filterMap (specRow (name2labelOf rawLines) W H)) := by
  unfold gen_label
  simp only [hp, hW, hH]
  exact genRows_total _ _ _ hW0 hH0 _ hready

/-- Witness for C5 on `egRoot` with names file `["cat"]`: the `cat`
box is known, the `zebra` box is unknown, and `gen_label` succeeds. -/
theorem gen_label_skips_unknown_names_witness :
    (parse_anno "dir/a.xml" egRoot = .ok egAnno ∧
      (10 : Int) ≠ 0 ∧
      egAnno.objects.all (boxReady (name2labelOf ["cat"])) = true) ∧
    gen_label "dir/a.xml" egRoot ["cat"] =
      .ok (egAnno.objects.filterMap (specRow (name2labelOf ["cat"]) 10 10)) :=
  ⟨⟨by decide, by decide, by decide⟩,
   gen_label_skips_unknown_names "dir/a.xml" egRoot ["cat"] egAnno 10 10
     (by decide) (by decide) (by decide) (by decide) (by decide) (by decide)⟩

/-! ## Claims C7 and C10: `distribution` and the `'N'` key -/

theorem distObjs_eq_distNames (objs : List PObj) :
    ∀ d, distObjs objs d = distNames (objs.map PObj.name) d := by
  induction objs with
  | nil => intro d; rfl
  | cons o rest ih => intro d; simp only [distObjs, List.map_cons, distNames, ih]

theorem distNames_append (xs : List (Option String)) :
    ∀ (ys : List (Option String)) d,
      distNames (xs ++ ys) d = distNames ys (distNames xs d) := by
  induction xs with
  | nil => intro ys d; rfl
  | cons x rest ih =>
    intro ys d
    simp only [List.cons_append, distNames]
    exact ih _ _

theorem distAnnos_eq_distNames (annos : List PAnno) :
    ∀ d, distAnnos annos d = distNames (allNames annos) d := by
  induction annos with
  | nil => intro d; rfl
  | cons a rest ih =>
    intro d
    simp only [distAnnos, allNames, distNames_append, distObjs_eq_distNames, ih]

theorem distNames_get_N (ns : List (Option String)) :
    ∀ (d : List (Option String × Nat)) (v : Nat), dictGet d (some "N") = some v →
      dictGet (distNames ns d) (some "N") =
        some (v + ns.length + ns.count (some "N")) := by
  induction ns with
  | nil => intro d v h; simpa [distNames] using h
  | cons nm rest ih =>
    intro d v h
    simp only [distNames]
    by_cases hnm : nm = some "N"
    · subst hnm
      have h1 : dictGet (dictInc d (some "N")) (some "N") = some (v + 1) := by
        rw [dictGet_dictInc_self, h]; rfl
      have h2 : dictGet (dictInc (dictInc d (some "N")) (some "N")) (some "N")
          = some (v + 1 + 1) := by
        rw [dictGet_dictInc_self, h1]; rfl
      rw [ih _ _ h2]
      congr 1
      simp only [List.length_cons, List.count_cons, beq_self_eq_true, if_true]
      omega
    · have h1 : dictGet (dictInc d nm) (some "N") = some v := by
        rw [dictGet_dictInc_ne _ _ _ (fun he => hnm he.symm)]
        exact h
      have h2 : dictGet (dictInc (dictInc d nm) (some "N")) (some "N")
          = some (v + 1) := by
        rw [dictGet_dictInc_self, h1]; rfl
      rw [ih _ _ h2]
      congr 1
      have hb : (nm == (some "N" : Option String)) = false := by
        simpa using hnm
      simp [List.length_cons, List.count_cons, hb]
      omega

theorem distNames_get_ne (ns : List (Option String)) :
    ∀ (d : List (Option String × Nat)) (k : Option String), k ≠ some "N" →
      dictGet (distNames ns d) k =
        if dictGet d k = none ∧ ns.count k = 0 then none
        else some ((dictGet d k).getD 0 + ns.count k) := by
  induction ns with
  | nil =>
    intro d k _
    cases h : dictGet d k <;> simp [distNames, h]
  | cons nm rest ih =>
    intro d k hk
    simp only [distNames]
    rw [ih _ _ hk]
    by_cases hknm : k = nm
    · subst hknm
      have hd' : dictGet (dictInc (dictInc d k) (some "N")) k
          = some ((dictGet d k).getD 0 + 1) := by
        rw [dictGet_dictInc_ne _ _ _ hk, dictGet_dictInc_self]
      rw [hd']
      rw [if_neg (by rintro ⟨hcontra, -⟩; cases hcontra)]
      have hcnt : (k :: rest).count k = rest.count k + 1 := by
        simp [List.count_cons]
      rw [hcnt]
      rw [if_neg (by rintro ⟨-, hc⟩; omega)]
      congr 1
      simp only [Option.getD_some]
      omega
    · have hd' : dictGet (dictInc (dictInc d nm) (some "N")) k = dictGet d k := by
        rw [dictGet_dictInc_ne _ _ _ hk, dictGet_dictInc_ne _ _ _ hknm]
      rw [hd']
      have hb : (nm == k) = false := by
        simpa using fun he => hknm he.symm
      have hcnt : (nm :: rest).count k = rest.count k := by
        simp [List.count_cons, hb]
      rw [hcnt]

theorem sumNonN_cons_N (v : Nat) (rest : List (Option String × Nat)) :
    sumNonN ((some "N", v) :: rest) = sumNonN rest := by
  simp [sumNonN, List.filter_cons]

theorem sumNonN_cons_ne (k : Option String) (hk : k ≠ some "N") (v : Nat)
    (rest : List (Option String × Nat)) :
    sumNonN ((k, v) :: rest) = v + sumNonN rest := by
  have hb : (k == (some "N" : Option String)) = false := by simpa using hk
  simp [sumNonN, List.filter_cons, hb]

theorem sumNonN_dictInc_N (d : List (Option String × Nat)) :
    sumNonN (dictInc d (some "N")) = sumNonN d := by
  induction d with
  | nil =>
    show sumNonN [(some "N", 1)] = sumNonN []
    rw [sumNonN_cons_N]
  | cons p rest ih =>
    obtain ⟨k', v'⟩ := p
    by_cases h : (some "N" : Option String) = k'
    · subst h
      rw [show dictInc ((some "N", v') :: rest) (some "N")
            = (some "N", v' + 1) :: rest from by simp [dictInc]]
      rw [sumNonN_cons_N, sumNonN_cons_N]
    · rw [show dictInc ((k', v') :: rest) (some "N")
            = (k', v') :: dictInc rest (some "N") from by simp [dictInc, h]]
      have hk' : k' ≠ some "N" := fun he => h he.symm
      rw [sumNonN_cons_ne _ hk', sumNonN_cons_ne _ hk', ih]

theorem sumNonN_dictInc_ne (d : List (Option String × Nat)) (k : Option String)
    (hk : k ≠ some "N") : sumNonN (dictInc d k) = sumNonN d + 1 := by
  induction d with
  | nil =>
    show sumNonN [(k, 1)] = sumNonN [] + 1
    rw [sumNonN_cons_ne _ hk]
    simp [sumNonN]
  | cons p rest ih =>
    obtain ⟨k', v'⟩ := p
    by_cases h : k = k'
    · subst h
      rw [show dictInc ((k, v') :: rest) k = (k, v' + 1) :: rest from by simp [dictInc]]
      rw [sumNonN_cons_ne _ hk, sumNonN_cons_ne _ hk]
      omega
    · rw [show dictInc ((k', v') :: rest) k = (k', v') :: dictInc rest k from by
          simp [dictInc, h]]
      by_cases hb' : k' = some "N"
      · subst hb'
        rw [sumNonN_cons_N, sumNonN_cons_N, ih]
      · rw [sumNonN_cons_ne _ hb', sumNonN_cons_ne _ hb', ih]
        omega

theorem distNames_sum (ns : List (Option String)) :
    ∀ d, (∀ n ∈ ns, n ≠ some "N") →
      sumNonN (distNames ns d) = sumNonN d + ns.length := by
  induction ns with
  | nil => intro d _; rfl
  | cons nm rest ih =>
    intro d h
    have hnm : nm ≠ some "N" := h nm (List.mem_cons_self _ _)
    have hrest : ∀ n ∈ rest, n ≠ some "N" := fun n hn => h n (List.mem_cons_of_mem _ hn)
    simp only [distNames, ih _ hrest, sumNonN_dictInc_N, sumNonN_dictInc_ne _ _ hnm,
      List.length_cons]
    omega

theorem dictInc_map_fst_of_mem (d : List (Option String × Nat)) (k : Option String)
    (h : dictGet d k ≠ none) : (dictInc d k).map Prod.fst = d.map Prod.fst := by
  induction d with
  | nil => simp [dictGet] at h
  | cons p rest ih =>
    obtain ⟨k', v'⟩ := p
    by_cases hk : k = k'
    · subst hk; simp [dictInc]
    · simp only [dictGet, if_neg hk] at h
      simp [dictInc, if_neg hk, ih h]

theorem dictInc_map_fst_count_ne (d : List (Option String × Nat)) (k k' : Option String)
    (h : k' ≠ k) : ((dictInc d k).map Prod.fst).count k' = (d.map Prod.fst).count k' := by
  induction d with
  | nil => simp [dictInc, List.count_cons, List.count_nil, h]
  | cons p rest ih =>
    obtain ⟨k0, v0⟩ := p
    by_cases hk : k = k0
    · subst hk; simp [dictInc, List.count_cons]
    · simp only [dictInc, if_neg hk]
      simp [List.count_cons, ih]

theorem dictGet_dictInc_isSome (d : List (Option String × Nat)) (k k' : Option String)
    (h : dictGet d k' ≠ none) : dictGet (dictInc d k) k' ≠ none := by
  by_cases hk : k' = k
  · subst hk; simp [dictGet_dictInc_self]
  · rw [dictGet_dictInc_ne _ _ _ hk]; exact h

theorem distNames_countN (ns : List (Option String)) :
    ∀ d, dictGet d (some "N") ≠ none →
      ((distNames ns d).map Prod.fst).count (some "N") =
        (d.map Prod.fst).count (some "N") := by
  induction ns with
  | nil => intro d _; rfl
  | cons nm rest ih =>
    intro d hN
    have hN1 : dictGet (dictInc d nm) (some "N") ≠ none :=
      dictGet_dictInc_isSome _ _ _ hN
    have hN2 : dictGet (dictInc (dictInc d nm) (some "N")) (some "N") ≠ none := by
      simp [dictGet_dictInc_self]
    simp only [distNames, ih _ hN2]
    rw [dictInc_map_fst_of_mem _ _ hN1]
    by_cases hnm : nm = some "N"
    · subst hnm; rw [dictInc_map_fst_of_mem _ _ hN]
    · rw [dictInc_map_fst_count_ne _ _ _ (fun he => hnm he.symm)]

/-- Claim C10: `distribution` stores the running total under the same
dict key `'N'` as a class literally named `N` would use: the value
returned at key `'N'` is always the total number of boxes plus the
number of boxes whose class name is `"N"` (so it equals the total
exactly when no box is named `"N"`), and the dict holds a single entry
with key `'N'` — a class named `"N"` gets no separate entry. -/
theorem distribution_N_value (annos : List PAnno) :
    dictGet (distribution annos) (some "N") =
      some ((allNames annos).length + (allNames annos).count (some "N")) ∧
    ((distribution annos).map Prod.fst).count (some "N") = 1 := by
  constructor
  · rw [distribution, distAnnos_eq_distNames,
      distNames_get_N _ _ 0 (by simp [dictGet])]
    simp
  · rw [distribution, distAnnos_eq_distNames, distNames_countN]
    · simp [List.count_cons]
    · simp [dictGet]

/-- Counterexample to C7 as stated: on a folder whose single annotation
has one box of class `"N"`, the returned dict is `{N: 2}` — the value
at the class name `"N"` is neither its occurrence count (1) nor the
total box count (1). -/
theorem distribution_counts_cex :
    distribution [⟨"a.xml", some "img", [], [⟨some "N", []⟩]⟩] = [(some "N", 2)] ∧
    dictGet (distribution [⟨"a.xml", some "img", [], [⟨some "N", []⟩]⟩]) (some "N") ≠
      some ((allNames [⟨"a.xml", some "img", [], [⟨some "N", []⟩]⟩]).count (some "N")) ∧
    dictGet (distribution [⟨"a.xml", some "img", [], [⟨some "N", []⟩]⟩]) (some "N") ≠
      some (allNames [⟨"a.xml", some "img", [], [⟨some "N", []⟩]⟩]).length :=
  ⟨by decide, by decide, by decide⟩

/-- Claim C7 (amended): provided no bounding box is named literally
`"N"`, `distribution` maps the key `'N'` to the total number of boxes,
maps every class name that occurs to its occurrence count (and absent
classes to nothing), the per-class counts sum to the total, and a
folder with zero boxes yields exactly `{N: 0}`. -/
theorem distribution_counts (annos : List PAnno)
    (h : (some "N") ∉ allNames annos) :
    dictGet (distribution annos) (some "N") = some (allNames annos).length ∧
    (∀ k : Option String, k ≠ some "N" →
      dictGet (distribution annos) k =
        if (allNames annos).count k = 0 then none
        else some ((allNames annos).count k)) ∧
    sumNonN (distribution annos) = (allNames annos).length ∧
    (allNames annos = [] → distribution annos = [(some "N", 0)]) := by
  refine ⟨?_, ?_, ?_, ?_⟩
  · have hc : (allNames annos).count (some "N") = 0 := List.count_eq_zero.mpr h
    rw [distribution, distAnnos_eq_distNames,
      distNames_get_N _ _ 0 (by simp [dictGet]), hc]
    simp
  · intro k hk
    rw [distribution, distAnnos_eq_distNames, distNames_get_ne _ _ _ hk]
    have hdk : dictGet [(some "N", (0 : Nat))] k = none := by
      simp [dictGet, hk]
    simp [hdk]
  · rw [distribution, distAnnos_eq_distNames, distNames_sum]
    · simp [sumNonN]
    · intro n hn hne
      exact h (hne ▸ hn)
  · intro h0
    rw [distribution, distAnnos_eq_distNames, h0]
    rfl

/-- Witness for the amended C7 on a folder with two `cat` boxes: the
total is 2 and the count of `cat` is 2. -/
theorem distribution_counts_witness :
    ((some "N") ∉
        allNames [⟨"a.xml", some "img", [], [⟨some "cat", []⟩, ⟨some "cat", []⟩]⟩]) ∧
    (dictGet (distribution [⟨"a.xml", some "img", [], [⟨some "cat", []⟩, ⟨some "cat", []⟩]⟩])
        (some "N") =
      some (allNames [⟨"a.xml", some "img", [], [⟨some "cat", []⟩, ⟨some "cat", []⟩]⟩]).length ∧
    (∀ k : Option String, k ≠ some "N" →
      dictGet (distribution [⟨"a.xml", some "img", [], [⟨some "cat", []⟩, ⟨some "cat", []⟩]⟩]) k =
        if (allNames [⟨"a.xml", some "img", [], [⟨some "cat", []⟩, ⟨some "cat", []⟩]⟩]).count k = 0
        then none
        else some ((allNames [⟨"a.xml", some "img", [],
          [⟨some "cat", []⟩, ⟨some "cat", []⟩]⟩]).count k)) ∧
    sumNonN (distribution [⟨"a.xml", some "img", [], [⟨some "cat", []⟩, ⟨some "cat", []⟩]⟩]) =
      (allNames [⟨"a.xml", some "img", [], [⟨some "cat", []⟩, ⟨some "cat", []⟩]⟩]).length ∧
    (allNames [⟨"a.xml", some "img", [], [⟨some "cat", []⟩, ⟨some "cat", []⟩]⟩] = [] →
      distribution [⟨"a.xml", some "img", [], [⟨some "cat", []⟩, ⟨some "cat", []⟩]⟩] =
        [(some "N", 0)])) :=
  ⟨by decide, distribution_counts _ (by decide)⟩

/-! ## Claim C4: the numeric conversion of the Annotation Parser -/

/-- Counterexample to C4 as stated: on an annotation whose size child
`width` has the non-numeric text `"abc"`, `parse_anno` fails with the
error of Python's `float()` — a `ValueError` — not with a `ParseError`
(which only malformed XML raises, before any conversion runs). -/
theorem parse_anno_nonnumeric_cex :
    parse_anno "a.xml" (sizeRoot "abc") = .error .valueError ∧
    parse_anno "a.xml" (sizeRoot "abc") ≠ .error .parseError :=
  ⟨by decide, by decide⟩

/-- Claim C4 (amended): the Annotation Parser converts each size and
bndbox coordinate child's text by parsing it as a float and truncating
to an integer, so numeric-looking text such as `"1621.0"` is accepted
and yields 1621; but the failures are the exceptions of the conversion
itself, not a ParseError: non-numeric text raises a `ValueError`, a
missing `bndbox` element a `TypeError` (iterating `None`), while a
missing individual size or coordinate child is not an error — its key
is simply absent from the parsed dict. -/
theorem parse_anno_numeric_conversion (s : String) :
    (∀ q : ℚ, pyFloat? s = some q →
        parse_anno "a.xml" (sizeRoot s) =
          .ok ⟨"a.xml", some "img.jpg", [("width", pyInt q)], []⟩) ∧
    (pyFloat? s = none →
        parse_anno "a.xml" (sizeRoot s) = .error .valueError) ∧
    (pyFloat? "1621.0" = some 1621 ∧ pyInt 1621 = 1621) ∧
    parse_anno "a.xml" noBndboxRoot = .error .typeError := by
  have hb : basename "a.xml" = "a.xml" := by decide
  refine ⟨?_, ?_, ⟨by decide, by decide⟩, by decide⟩
  · intro q hq
    simp [parse_anno, sizeRoot, findChild, XML.children, XML.tag, XML.text,
      List.find?, List.filter, intDictOf, pyIntFloat, hq, dictSet, parseObjs, hb]
  · intro hq
    simp [parse_anno, sizeRoot, findChild, XML.children, XML.tag, XML.text,
      List.find?, List.filter, intDictOf, pyIntFloat, hq]

/-- Witness for the amended C4: the text `"1621.0"` parses to the
rational 1621 and the parsed width is the integer 1621. -/
theorem parse_anno_numeric_conversion_witness :
    pyFloat? "1621.0" = some 1621 ∧
    parse_anno "a.xml" (sizeRoot "1621.0") =
      .ok ⟨"a.xml", some "img.jpg", [("width", pyInt 1621)], []⟩ :=
  ⟨by decide, (parse_anno_numeric_conversion "1621.0").1 1621 (by decide)⟩

/-! ## Claim C9: the two coexisting `parse_anno` implementations -/

theorem parseObjs_name_agree (objs : List XML) :
    ∀ ps rs, parseObjs objs = .ok ps → parserObjs objs = .ok rs →
      ps.map PObj.name = rs.map RObj.name := by
  induction objs with
  | nil =>
    intro ps rs hp hr
    simp only [parseObjs, Except.ok.injEq] at hp
    simp only [parserObjs, Except.ok.injEq] at hr
    rw [← hp, ← hr]
    rfl
  | cons o rest ih =>
    intro ps rs hp hr
    cases hno : findChild o "name" with
    | none => simp [parseObjs, parseObj, hno] at hp
    | some nameElem =>
      cases hbb : findChild o "bndbox" with
      | none => simp [parseObjs, parseObj, hno, hbb] at hp
      | some bbox =>
        cases hco : intDictOf [] bbox.children with
        | error e => simp [parseObjs, parseObj, hno, hbb, hco] at hp
        | ok coords =>
          cases hrest : parseObjs rest with
          | error e => simp [parseObjs, parseObj, hno, hbb, hco, hrest] at hp
          | ok ps' =>
            cases hrrest : parserObjs rest with
            | error e => simp [parserObjs, parserObj, hno, hbb, hrrest] at hr
            | ok rs' =>
              simp only [parseObjs, parseObj, hno, hbb, hco, hrest,
                Except.ok.injEq] at hp
              simp only [parserObjs, parserObj, hno, hbb, hrrest,
                Except.ok.injEq] at hr
              rw [← hp, ← hr]
              simp [ih ps' rs' hrest hrrest]

/-- Claim C9: the two coexisting `parse_anno` implementations agree,
whenever both succeed, on the filename text and the per-object name
texts, but differ in numeric conversion — `analysis.py` stores
`int(float(text))` for size and coordinate fields and adds the
annotation basename, while `parser.py` keeps the raw text — so even
after rendering the integers back to text (`PAnno.asRaw`) the two
functions disagree on an input whose width text is `"1621.0"`: they
are not extensionally equal. -/
theorem parse_anno_duplicates_drift :
    (∀ (path : String) (root : XML) (a : PAnno) (r : RAnno),
        parse_anno path root = .ok a → parser_parse_anno root = .ok r →
        a.filename = r.filename ∧ a.objects.map PObj.name = r.objects.map RObj.name) ∧
    (parse_anno "a.xml" (sizeRoot "1621.0")).map PAnno.asRaw ≠
      parser_parse_anno (sizeRoot "1621.0") := by
  constructor
  · intro path root a r hp hr
    cases hfn : findChild root "filename" with
    | none => simp [parse_anno, hfn] at hp
    | some fnElem =>
      cases hsz : findChild root "size" with
      | none => simp [parse_anno, hfn, hsz] at hp
      | some sizeElem =>
        cases hsd : intDictOf [] sizeElem.children with
        | error e => simp [parse_anno, hfn, hsz, hsd] at hp
        | ok size =>
          cases hob : parseObjs (root.children.filter (fun c => c.tag == "object")) with
          | error e => simp [parse_anno, hfn, hsz, hsd, hob] at hp
          | ok objs =>
            cases hrob : parserObjs (root.children.filter (fun c => c.tag == "object")) with
            | error e => simp [parser_parse_anno, hfn, hsz, hrob] at hr
            | ok robjs =>
              simp only [parse_anno, hfn, hsz, hsd, hob, Except.ok.injEq] at hp
              simp only [parser_parse_anno, hfn, hsz, hrob, Except.ok.injEq] at hr
              rw [← hp, ← hr]
              exact ⟨rfl, parseObjs_name_agree _ _ _ hob hrob⟩
  · decide

/-- Witness for C9 on the concrete annotation `egRoot`: both parsers
succeed and agree on the filename and the object names `cat`, `zebra`. -/
theorem parse_anno_duplicates_drift_witness :
    (parse_anno "dir/a.xml" egRoot = .ok egAnno ∧
      parser_parse_anno egRoot = .ok egRAnno) ∧
    (egAnno.filename = egRAnno.filename ∧
      egAnno.objects.map PObj.name = egRAnno.objects.map RObj.name) :=
  ⟨⟨by decide, by decide⟩,
   parse_anno_duplicates_drift.1 "dir/a.xml" egRoot egAnno egRAnno
     (by decide) (by decide)⟩

end Odutil
